import Mathlib

/- Shallow embedding of the xdrpp event-dispatch engine
   (src/xmsg/pollset.cc) and the XDR marshalling helpers
   (src/xdrpp/marshal.cc).

   Callbacks are represented by opaque numeric identifiers: invoking a
   callback is recorded as an event in a trace rather than executed.
   The C++ `pollfd.events` mask only ever holds POLLIN and POLLOUT in
   this code, so it is modelled as a pair of booleans; `revents` adds
   the POLLERR and POLLHUP bits the dispatch loop inspects. -/

namespace XdrModel

/-- The interest mask of a `pollfd` entry.  `pollin` is the POLLIN bit
set by `pfdp->events |= POLLIN`, `pollout` the POLLOUT bit. -/
structure Events where
  pollin : Bool
  pollout : Bool
deriving DecidableEq, Repr

/-- The C++ test `!pfd.events` (the whole interest mask is zero). -/
def Events.isEmptyMask (e : Events) : Bool :=
  !e.pollin && !e.pollout

/-- The kernel-reported readiness mask of a `pollfd` entry, restricted
to the bits `pollset::poll` inspects: POLLIN, POLLOUT, POLLERR, POLLHUP. -/
structure REvents where
  pollin : Bool
  pollout : Bool
  pollerr : Bool
  pollhup : Bool
deriving DecidableEq, Repr

/-- One entry of the `pollfds_` readiness-request array. -/
structure Pollfd where
  fd : Int
  events : Events
  revents : REvents
deriving DecidableEq, Repr

/-- One record of the `state_` map (`pollset::fd_state`): the index into
`pollfds_`, the read and write callback slots, and the one-shot flags.
A callback slot holds the identifier of the stored callback, `none`
standing for an empty `std::function`. -/
structure FdState where
  idx : Int
  rcb : Option Nat
  wcb : Option Nat
  roneshot : Bool
  woneshot : Bool
deriving DecidableEq, Repr

/-- A fresh `fd_state`: default construction leaves the index at the
sentinel -1 (tested by `if (fs.idx < 0)` in `fd_cb_helper`) and both
callback slots empty. -/
def defaultFdState : FdState :=
  ⟨-1, none, none, false, false⟩

/-- The `state_` map from descriptor number to its record. -/
def Reg : Type :=
  Int → Option FdState

/-- `state_.erase(fd)` (erase-if-present, as done in `consolidate`). -/
def regErase (st : Reg) (fd : Int) : Reg :=
  fun g => if g = fd then none else st g

/-- `state_.at(fd).idx = i`.  `at` presupposes that the record exists;
on an absent record this model leaves the map unchanged (the invariant
theorems show the record is always present at this call site). -/
def regSetIdx (st : Reg) (fd : Int) (i : Int) : Reg :=
  fun g => if g = fd then (st g).map (fun fs => { fs with idx := i }) else st g

/-- The `op_t` mode argument of `fd_cb`, abstracting the kReadFlag,
kWriteFlag and kOnceFlag bits of the bitmask. -/
structure Op where
  read : Bool
  write : Bool
  once : Bool
deriving DecidableEq, Repr

/-- One record of the `time_cbs_` multimap: the absolute millisecond
deadline (the key), a unique record identity standing for the node the
multimap iterator points at, and the stored callback. -/
structure TRec where
  deadline : Int
  id : Nat
  cb : Nat
deriving DecidableEq, Repr

/-- Events traced by the timer-firing loop: invocation of the callback
of the record with the given identity, and erasure of that record. -/
inductive TEvent where
  | invoke (id : Nat)
  | erase (id : Nat)
deriving DecidableEq, Repr

/-- `pollset::run_timeouts`:

    auto i = time_cbs_.begin();
    if (i != time_cbs_.end()) {
      int64_t now = now_ms();
      while (i != time_cbs_.end() && now >= i->first) {
        i->second();
        time_cbs_.erase(i++);
      }
    }

The queue is the multimap in iteration order (sorted by deadline,
insertion order within a deadline).  Each due record first has its
callback invoked (`i->second()`) and is erased afterwards
(`time_cbs_.erase(i++)`); the trace records the two steps in that
order.  `now` is read once, before the loop. -/
def run_timeouts (now : Int) : List TRec → List TEvent × List TRec
  | [] => ([], [])
  | r :: rest =>
    if now ≥ r.deadline then
      let p := run_timeouts now rest
      (TEvent.invoke r.id :: TEvent.erase r.id :: p.1, p.2)
    else ([], r :: rest)

/-- The loop-relevant instance state of a `pollset`: the `pollfds_`
array, the `time_cbs_` multimap (in iteration order), the `async_cbs_`
inbox vector, the `async_pending_` flag, the `nasync_` counter, and a
count of wake bytes written to the self-pipe write end (each call to
`wake` appends one byte). -/
structure PState where
  pollfds : List Pollfd
  time_cbs : List TRec
  async_cbs : List Nat
  async_pending : Bool
  nasync : Nat
  wakes : Nat
deriving DecidableEq, Repr

/-- `pollset::inject_cb_vec(b, e)`:

    if (b != e) {
      std::lock_guard<std::mutex> lk {async_cbs_lock_};
      std::move(b, e, async_cbs_.end());
      if (!async_pending_) {
        async_pending_ = true;
        wake();
      }
    }

`std::move(b, e, async_cbs_.end())` copies the range to the positions
starting at `async_cbs_.end()`, i.e. one past the last element: the
vector is never resized, so the writes land outside the vector and its
observable contents are unchanged.  The boolean result records that
such an out-of-bounds write occurred. -/
def inject_cb_vec (s : PState) (tail : List Nat) : PState × Bool :=
  if tail.isEmpty then (s, false)
  else
    let s2 :=
      if s.async_pending then s
      else { s with async_pending := true, wakes := s.wakes + 1 }
    (s2, true)

/-- The scope-exit action of `pollset::run_pending_asyncs`: when the
callback at position `k` of the drained batch `cbs` raises, the
destructor of `cleanup` runs `inject_cb_vec(i+1, cbs.end())`, i.e.
re-injects the unprocessed tail `cbs.drop (k+1)`. -/
def run_pending_asyncs_onError (s : PState) (cbs : List Nat) (k : Nat) :
    PState × Bool :=
  inject_cb_vec s (cbs.drop (k + 1))

/-- Modelled from the spec: the public `inject` entry point
(`pollset::inject_cb`) is defined in the header pollset.h, which is not
part of src/.  Spec §4.3: it "appends a callback to the inbox under the
inbox mutex. If the pending-wake flag was false, it is set and a single
wake byte is written to the self-pipe write end"; the async inbox
non-empty counter (`nasync_`, read by `pending`) is incremented. -/
def inject (s : PState) (cb : Nat) : PState :=
  { s with
    async_cbs := s.async_cbs ++ [cb]
    nasync := s.nasync + 1
    async_pending := true
    wakes := if s.async_pending then s.wakes else s.wakes + 1 }

/-- `pollset::pending`:

    return pollfds_.size() > 1 || nasync_ || !time_cbs_.empty(); -/
def pending (s : PState) : Bool :=
  decide (s.pollfds.length > 1) || decide (s.nasync ≠ 0) || !s.time_cbs.isEmpty

/-- `std::numeric_limits<int>::max()`, the clamp applied to the poll
timeout. -/
def intMax : Int :=
  2147483647

/-- `pollset::next_timeout(ms)`:

    auto next = time_cbs_.begin();
    if (next == time_cbs_.end())
      return ms;
    int64_t now = now_ms();
    if (now >= next->first)
      return 0;
    int64_t wait = next->first - now;
    if (wait > std::numeric_limits<int>::max())
      wait = std::numeric_limits<int>::max();
    if (ms >= 0 && ms <= wait)
      return ms;
    return wait;

`now` is passed explicitly in place of the `now_ms()` clock read. -/
def next_timeout (ms now : Int) : List TRec → Int
  | [] => ms
  | r :: _ =>
    if now ≥ r.deadline then 0
    else
      let wait := r.deadline - now
      let wait := if wait > intMax then intMax else wait
      if 0 ≤ ms ∧ ms ≤ wait then ms else wait

/-- Replace the interest mask of `pollfds_[i]` by `f` applied to it
(the `pfdp->events |= ...` updates; `at` presupposes the index is in
range, so an out-of-range index leaves the array unchanged). -/
def setEvents (pfds : List Pollfd) (i : Nat) (f : Events → Events) :
    List Pollfd :=
  match pfds[i]? with
  | some p => pfds.set i { p with events := f p.events }
  | none => pfds

/-- `pollset::fd_cb_helper(fd, op)`:

    fd_state &fs = state_[fd];
    pollfd *pfdp;
    if (fs.idx < 0) {
      fs.idx = pollfds_.size();
      pollfds_.resize(fs.idx + 1);
      pfdp = &pollfds_.back();
      pfdp->fd = fd;
    } else {
      pfdp = &pollfds_.at(fs.idx);
      assert (pfdp->fd == fd);
    }
    if (op & kReadFlag) {
      if (op & kWriteFlag) { ... std::terminate(); }
      fs.roneshot = op & kOnceFlag;
      pfdp->events |= POLLIN;
      return fs.rcb;
    } else if (op & kWriteFlag) {
      fs.woneshot = op & kOnceFlag;
      pfdp->events |= POLLOUT;
      return fs.wcb;
    } else { ... std::terminate(); }

`state_[fd]` default-inserts a fresh record; `resize` value-initializes
the appended `pollfd` (interest and readiness masks zero) before its
`fd` field is assigned.  The result is the updated array and registry,
`none` standing for the two `std::terminate` branches.  Storing the
actual callback into the returned slot is done by the header-level
`fd_cb` wrapper (not in src/) and is not part of this function. -/
def fd_cb_helper (fd : Int) (op : Op) (pfds : List Pollfd) (st : Reg) :
    Option (List Pollfd × Reg) :=
  let fs := (st fd).getD defaultFdState
  let i : Nat := if fs.idx < 0 then pfds.length else fs.idx.toNat
  let fs1 : FdState :=
    if fs.idx < 0 then { fs with idx := (pfds.length : Int) } else fs
  let pfds1 : List Pollfd :=
    if fs.idx < 0 then
      pfds ++ [⟨fd, ⟨false, false⟩, ⟨false, false, false, false⟩⟩]
    else pfds
  if op.read then
    if op.write then none
    else
      let fs2 := { fs1 with roneshot := op.once }
      some (setEvents pfds1 i (fun e => { e with pollin := true }),
            fun g => if g = fd then some fs2 else st g)
  else if op.write then
    let fs2 := { fs1 with woneshot := op.once }
    some (setEvents pfds1 i (fun e => { e with pollout := true }),
          fun g => if g = fd then some fs2 else st g)
  else none

/-- The leading loop of `pollset::consolidate`, acting on the reversed
array so that `pollfds_.back()` is the head:

    while (!pollfds_.empty() && !pollfds_.back().events) {
      auto fi = state_.find(pollfds_.back().fd);
      if (fi != state_.end())
        state_.erase(fi);
      pollfds_.pop_back();
    } -/
def trimBackRev : List Pollfd → Reg → List Pollfd × Reg
  | [], st => ([], st)
  | p :: rest, st =>
    if p.events.isEmptyMask then trimBackRev rest (regErase st p.fd)
    else (p :: rest, st)

/-- The leading loop of `pollset::consolidate` on the array itself. -/
def trimBack (pfds : List Pollfd) (st : Reg) : List Pollfd × Reg :=
  let p := trimBackRev pfds.reverse st
  (p.1.reverse, p.2)

/-- One iteration of the compaction loop of `pollset::consolidate` at
index `i`:

    {
      pollfd &pfd1 = pollfds_.at(i);
      if (pfd1.events)
        continue;
      auto fi = state_.find(pfd1.fd);
      if (fi != state_.end())
        state_.erase(fi);
    }
    const pollfd &pfd = pollfds_[i] = pollfds_.back();
    state_.at(pfd.fd).idx = i;
    pollfds_.pop_back(); -/
def cstep (i : Nat) (pfds : List Pollfd) (st : Reg) : List Pollfd × Reg :=
  match pfds[i]? with
  | none => (pfds, st)
  | some p =>
    if p.events.isEmptyMask then
      match pfds.getLast? with
      | none => (pfds, st)
      | some back =>
        ((pfds.set i back).dropLast, regSetIdx (regErase st p.fd) back.fd i)
    else (pfds, st)

/-- The compaction loop `for (i -= 2; i >= 0; --i)` of
`pollset::consolidate`, run from index `i` down to index 0. -/
def cloop : Nat → List Pollfd → Reg → List Pollfd × Reg
  | 0, pfds, st => cstep 0 pfds st
  | i + 1, pfds, st =>
    let p := cstep (i + 1) pfds st
    cloop i p.1 p.2

/-- `pollset::consolidate`: the trailing-trim loop, then
`int i = pollfds_.size(); if (i < 2) return;` and the compaction loop
starting at `i - 2`. -/
def consolidate (pfds : List Pollfd) (st : Reg) : List Pollfd × Reg :=
  let p := trimBack pfds st
  if p.1.length < 2 then p
  else cloop (p.1.length - 2) p.1 p.2

/-- The two-structure invariant of the descriptor registry: every slot
of `pollfds_` has a record in `state_` whose stored index is the
position of the slot. -/
def IdxOk (pfds : List Pollfd) (st : Reg) : Prop :=
  ∀ (j : Nat) (p : Pollfd),
    pfds[j]? = some p → ∃ fs, st p.fd = some fs ∧ fs.idx = (j : Int)

/-- `pfd.revents & (POLLIN|POLLHUP|POLLERR)` as tested by the read
branch of the dispatch loop. -/
def readReady (r : REvents) : Bool :=
  r.pollin || r.pollhup || r.pollerr

/-- `pfd.revents & (POLLOUT|POLLHUP|POLLERR)` as tested by the write
branch of the dispatch loop. -/
def writeReady (r : REvents) : Bool :=
  r.pollout || r.pollhup || r.pollerr

/-- The direction of a dispatched callback. -/
inductive Dir where
  | readDir
  | writeDir
deriving DecidableEq, Repr

/-- One callback invocation performed by the dispatch loop, together
with the slot and record contents in effect at the moment the callback
runs. -/
structure Call where
  dir : Dir
  cb : Nat
  fsAt : FdState
  pfdAt : Pollfd
deriving DecidableEq, Repr

/-- The dispatch of one ready slot inside `pollset::poll`:

    if (pfd.revents & (POLLIN|POLLHUP|POLLERR) && fi.rcb) {
      if (fi.roneshot) {
        cb_t cb {std::move(fi.rcb)};
        fi.rcb = nullptr;
        pfd.events &= ~POLLIN;
        cb();
      }
      else
        fi.rcb();
    }
    if (pfd.revents & (POLLOUT|POLLHUP|POLLERR) && fi.wcb) {
      if (fi.woneshot) {
        cb_t cb {std::move(fi.wcb)};
        fi.wcb = nullptr;
        pfd.events &= ~POLLOUT;
        cb();
      }
      else
        fi.wcb();
    }

The result is the slot and record after dispatch plus the trace of
invocations in program order, each carrying the record and slot state
visible when the callback starts running. -/
def dispatch1 (pfd : Pollfd) (fs : FdState) : Pollfd × FdState × List Call :=
  let r1 : Pollfd × FdState × List Call :=
    if readReady pfd.revents then
      match fs.rcb with
      | some cb =>
        if fs.roneshot then
          let fs2 := { fs with rcb := none }
          let pfd2 := { pfd with events := { pfd.events with pollin := false } }
          (pfd2, fs2, [⟨Dir.readDir, cb, fs2, pfd2⟩])
        else (pfd, fs, [⟨Dir.readDir, cb, fs, pfd⟩])
      | none => (pfd, fs, [])
    else (pfd, fs, [])
  let pfd1 := r1.1
  let fs1 := r1.2.1
  if writeReady pfd1.revents then
    match fs1.wcb with
    | some cb =>
      if fs1.woneshot then
        let fs2 := { fs1 with wcb := none }
        let pfd2 := { pfd1 with events := { pfd1.events with pollout := false } }
        (pfd2, fs2, r1.2.2 ++ [⟨Dir.writeDir, cb, fs2, pfd2⟩])
      else (pfd1, fs1, r1.2.2 ++ [⟨Dir.writeDir, cb, fs1, pfd1⟩])
    | none => (pfd1, fs1, r1.2.2)
  else (pfd1, fs1, r1.2.2)

/-- The process-wide signal-router state: `signal_owners` (PollSet
instances are numeric identities, `none` = no owner), `signal_flags`,
the per-PollSet `signal_cbs_` maps, which signals have the engine
handler installed as the OS disposition (false = SIG_DFL), and the
signals re-raised via `std::raise`. -/
structure SigGlobal where
  owners : Nat → Option Nat
  flags : Nat → Nat
  cbs : Nat → Nat → Option Nat
  engineDisp : Nat → Bool
  raised : List Nat

/-- `pollset::erase_signal_cb(sig)` (caller holds signal_owners_lock):

    pollset *ps = signal_owners[sig];
    if (!ps)
      return;
    struct sigaction sa;  sa.sa_handler = SIG_DFL;  ...
    if (sigaction(sig, &sa, nullptr) == -1) throw ...;
    signal_owners[sig] = nullptr;
    std::atomic_thread_fence(std::memory_order_seq_cst);
    ps->signal_cbs_.erase(sig);
    while (signal_flags[sig] & 1)
      std::this_thread::yield();
    if (signal_flags[sig]) {
      signal_flags[sig] = 0;
      std::raise(sig);
    }

In this single-threaded model the flag does not change while the
spin runs, so a flag with the wake-in-progress bit set means the spin
never terminates; that case is mapped to `none`. -/
def erase_signal_cb (s : SigGlobal) (sig : Nat) : Option SigGlobal :=
  match s.owners sig with
  | none => some s
  | some ps =>
    let s3 : SigGlobal :=
      { s with
        engineDisp := fun g => if g = sig then false else s.engineDisp g
        owners := fun g => if g = sig then none else s.owners g
        cbs := fun p g => if p = ps ∧ g = sig then none else s.cbs p g }
    if s3.flags sig % 2 = 1 then none
    else if s3.flags sig ≠ 0 then
      some { s3 with
             flags := fun g => if g = sig then 0 else s3.flags g
             raised := sig :: s3.raised }
    else some s3

/-- `pollset::signal_cb(sig, nullptr)`:

    assert (sig > 0 && sig < num_sig);
    std::lock_guard<std::mutex> lk {signal_owners_lock};
    erase_signal_cb(sig);

`caller` is the identity of the PollSet the method is invoked on; the
body never consults it. -/
def signal_cb_null (_caller : Nat) (s : SigGlobal) (sig : Nat) :
    Option SigGlobal :=
  erase_signal_cb s sig

/-- Emplacement into the `time_cbs_` multimap: the new record is placed
after every record whose key is ≤ its own (the upper bound of its key),
preserving insertion order among equal deadlines. -/
def emplaceTR (q : List TRec) (r : TRec) : List TRec :=
  match q with
  | [] => [r]
  | x :: rest =>
    if x.deadline ≤ r.deadline then x :: emplaceTR rest r else r :: x :: rest

/-- `pollset::timeout_cancel(t)`:

    if (timeout_is_not_null(t)) {
      assert (time_cbs_.find(t.i_->first) != time_cbs_.end());
      time_cbs_.erase(t.i_);
      t = timeout_null();
    }

A `Timeout` handle is `none` when null and `some h` when it is an
iterator at the record with identity `h`.  The result is the updated
handle and queue. -/
def timeout_cancel (t : Option Nat) (q : List TRec) :
    Option Nat × List TRec :=
  match t with
  | none => (none, q)
  | some h => (none, q.filter (fun r => r.id ≠ h))

/-- `pollset::timeout_reschedule_at(t, ms)`:

    auto i = t.i_;
    t.i_ = time_cbs_.emplace(ms, std::move(i->second));
    time_cbs_.erase(i);

The handle is dereferenced (`i->second`) with no null check: a null or
dangling handle is undefined behavior, mapped to `none`.  `freshId` is
the identity of the newly emplaced record. -/
def timeout_reschedule_at (t : Option Nat) (ms : Int) (q : List TRec)
    (freshId : Nat) : Option (Option Nat × List TRec) :=
  match t with
  | none => none
  | some h =>
    match q.find? (fun r => r.id = h) with
    | none => none
    | some r =>
      some (some freshId,
            (emplaceTR q ⟨ms, freshId, r.cb⟩).filter (fun x => x.id ≠ h))

/-- The number of iterations of the padding loop
`while (len & 3) { ++len; ... }` of the marshalling helpers: the
distance from `len` up to the next multiple of 4. -/
def padCount (len : Nat) : Nat :=
  (4 - len % 4) % 4

/-- `marshal_base::put_bytes(pr, buf, len)`: copies the `len` data
bytes and then writes zero bytes until the next 4-byte boundary.  The
result is the byte sequence written at the cursor and the number of
bytes the cursor advances. -/
def put_bytes (data : List Nat) : List Nat × Nat :=
  (data ++ List.replicate (padCount data.length) 0,
   data.length + padCount data.length)

/-- `marshal_base::get_bytes(pr, buf, len)`: copies `len` bytes out of
the input stream at the cursor, then checks each padding byte up to the
next 4-byte boundary, raising `xdr_should_be_zero` on the first
non-zero one.  The result is the extracted bytes and the cursor
advance, or an error when some padding byte is non-zero (the copy of
the data bytes happens before the check in the source; the error model
only reports the failure). -/
def get_bytes (stream : List Nat) (len : Nat) :
    Except Unit (List Nat × Nat) :=
  if ((stream.drop len).take (padCount len)).all (fun b => b = 0) then
    Except.ok (stream.take len, len + padCount len)
  else Except.error ()

/-- Concrete poll-set instance state with everything empty and the
pending-wake flag clear. -/
def emptyPS : PState :=
  ⟨[], [], [], false, 0, 0⟩

/-- Concrete signal-router state: PollSet 2 owns signal 5 with callback
9 and the engine handler installed; all flags idle. -/
def sigEx : SigGlobal :=
  { owners := fun g => if g = 5 then some 2 else none
    flags := fun _ => 0
    cbs := fun p g => if p = 2 ∧ g = 5 then some 9 else none
    engineDisp := fun g => decide (g = 5)
    raised := [] }

/-- Concrete ready slot: descriptor 7 with both interest bits set and
the kernel reporting readable and writable. -/
def exPfd : Pollfd :=
  ⟨7, ⟨true, true⟩, ⟨true, true, false, false⟩⟩

/-- Concrete descriptor record for `exPfd`: a one-shot read callback 5
and a persistent write callback 6. -/
def exFs : FdState :=
  ⟨0, some 5, some 6, true, false⟩

/-- Concrete readiness array: slot 0 is the self-pipe descriptor 3 with
read interest, slot 1 a user descriptor 4 whose interest mask has been
cleared by unregistration. -/
def wPfds : List Pollfd :=
  [⟨3, ⟨true, false⟩, ⟨false, false, false, false⟩⟩,
   ⟨4, ⟨false, false⟩, ⟨false, false, false, false⟩⟩]

/-- Concrete registry matching `wPfds`: descriptor 3 at slot 0 with a
read callback, descriptor 4 at slot 1. -/
def wReg : Reg :=
  fun g =>
    if g = 3 then some ⟨0, some 1, none, false, false⟩
    else if g = 4 then some ⟨1, none, none, false, false⟩
    else none

/-- C1 counterexample: with a single timer record (identity 0) due at
`now = 0`, the trace of `run_timeouts` invokes the callback of the
record and only afterwards erases the record, so the record is not
erased from the queue before its callback is invoked, contrary to the
claim. -/
theorem run_timeouts_erase_before_invoke_cex :
    (run_timeouts 0 [⟨0, 0, 7⟩]).1 = [TEvent.invoke 0, TEvent.erase 0] ∧
    ¬ ((run_timeouts 0 [⟨0, 0, 7⟩]).1.indexOf (TEvent.erase 0) <
        (run_timeouts 0 [⟨0, 0, 7⟩]).1.indexOf (TEvent.invoke 0)) := by
  decide

/-- C1 (amended): when a driver step runs timers, the due records are
processed in queue order; each due record has its callback invoked
while the record is still in the queue and the record is erased
immediately after the callback returns (so a callback that re-schedules
at the same deadline creates a new record following the fired one); on
a deadline-sorted queue the processed records are exactly the timers
with deadline ≤ now, and the remaining queue is untouched. -/
theorem run_timeouts_fires_due_invoke_then_erase :
    ∀ (now : Int) (q : List TRec),
      run_timeouts now q =
        ((q.takeWhile (fun r => decide (now ≥ r.deadline))).flatMap
           (fun r => [TEvent.invoke r.id, TEvent.erase r.id]),
         q.dropWhile (fun r => decide (now ≥ r.deadline))) ∧
      (List.Pairwise (fun a b => a.deadline ≤ b.deadline) q →
        q.takeWhile (fun r => decide (now ≥ r.deadline)) =
          q.filter (fun r => decide (now ≥ r.deadline))) := by
  intro now q
  constructor
  · induction q with
    | nil => simp [run_timeouts]
    | cons r rest ih =>
      by_cases h : now ≥ r.deadline
      · simp [run_timeouts, h, List.takeWhile_cons, List.dropWhile_cons, ih]
      · simp [run_timeouts, h, List.takeWhile_cons, List.dropWhile_cons]
  · induction q with
    | nil => simp
    | cons r rest ih =>
      intro hp
      rw [List.pairwise_cons] at hp
      by_cases h : now ≥ r.deadline
      · simp [List.takeWhile_cons, List.filter_cons, h, ih hp.2]
      · simp only [List.takeWhile_cons, List.filter_cons, h, decide_False,
          Bool.false_eq_true, if_false, cond_false]
        symm
        rw [List.filter_eq_nil_iff]
        intro a ha
        have := hp.1 a ha
        simp only [decide_eq_true_eq]
        omega

/-- C1 amended-claim witness at a concrete input: with timers at
deadlines 5 and 20 and `now = 10`, exactly the first fires, the trace
is invoke-then-erase, and the sorted-queue due prefix is the set of due
timers. -/
theorem run_timeouts_fires_due_witness :
    (run_timeouts 10 [⟨5, 0, 100⟩, ⟨20, 1, 101⟩]).1 =
      [TEvent.invoke 0, TEvent.erase 0] ∧
    List.takeWhile (fun r => decide ((10 : Int) ≥ r.deadline))
        ([⟨5, 0, 100⟩, ⟨20, 1, 101⟩] : List TRec) =
      List.filter (fun r => decide ((10 : Int) ≥ r.deadline))
        ([⟨5, 0, 100⟩, ⟨20, 1, 101⟩] : List TRec) := by
  have h := run_timeouts_fires_due_invoke_then_erase 10
    [⟨5, 0, 100⟩, ⟨20, 1, 101⟩]
  exact ⟨by rw [h.1]; rfl, h.2 (by decide)⟩

/-- C3: evaluation of the re-injection path at the failing input.  The
inbox starts empty with the pending-wake flag clear; the drained batch
is `[10, 11]` and the callback at position 0 raises, so the scope-exit
action re-injects the tail `[11]`.  The `std::move` to
`async_cbs_.end()` performs an out-of-bounds write (flagged `true`) and
the inbox does not receive the tail — it stays empty instead of
becoming `[11]` — even though the wake byte is written and the
pending-wake flag set. -/
theorem inject_cb_vec_past_end_loses_tail :
    (run_pending_asyncs_onError emptyPS [10, 11] 0).2 = true ∧
    (run_pending_asyncs_onError emptyPS [10, 11] 0).1.async_cbs = [] ∧
    emptyPS.async_cbs ++ [11] ≠ [] ∧
    (run_pending_asyncs_onError emptyPS [10, 11] 0).1.wakes =
      emptyPS.wakes + 1 ∧
    (run_pending_asyncs_onError emptyPS [10, 11] 0).1.async_pending =
      true := by
  decide

/-- C4: `pending` returns true exactly when more than the reserved
self-pipe slot is registered, or the async inbox non-empty counter is
positive, or the timer queue is non-empty; and after `inject` adds a
callback, `pending` returns true. -/
theorem pending_iff_and_inject_pending :
    ∀ (s : PState),
      (pending s = true ↔
        1 < s.pollfds.length ∨ s.nasync ≠ 0 ∨ s.time_cbs ≠ []) ∧
      ∀ cb, pending (inject s cb) = true := by
  intro s
  constructor
  · simp [pending, List.isEmpty_iff, or_assoc]
  · intro cb
    simp [pending, inject]

/-- C6: `next_timeout` returns the caller-supplied `ms` when the timer
queue is empty; 0 when the earliest deadline is ≤ now; and otherwise
the minimum of `ms` (a negative `ms` meaning infinite) and the time to
the earliest deadline clamped to the maximum positive `int` value. -/
theorem next_timeout_spec :
    ∀ (ms now : Int) (q : List TRec),
      (q = [] → next_timeout ms now q = ms) ∧
      ∀ r rest, q = r :: rest → (∀ x ∈ rest, r.deadline ≤ x.deadline) →
        (r.deadline ≤ now → next_timeout ms now q = 0) ∧
        (now < r.deadline → 0 ≤ ms →
          next_timeout ms now q = min ms (min (r.deadline - now) intMax)) ∧
        (now < r.deadline → ms < 0 →
          next_timeout ms now q = min (r.deadline - now) intMax) := by
  intro ms now q
  constructor
  · rintro rfl
    rfl
  · rintro r rest rfl _
    refine ⟨fun h1 => ?_, fun h1 h2 => ?_, fun h1 h2 => ?_⟩ <;>
      simp only [next_timeout, intMax, min_def] <;>
      split_ifs <;> omega

/-- C6 witness: a timer 100 ms away, a caller timeout of 50 ms and an
empty-queue call evaluated concretely through the theorem. -/
theorem next_timeout_spec_witness :
    next_timeout 50 0 [⟨100, 0, 5⟩] = min 50 (min (100 - 0) intMax) ∧
    next_timeout 50 0 [⟨100, 0, 5⟩] = 50 ∧
    next_timeout 7 0 [] = 7 := by
  have h := ((next_timeout_spec 50 0 [⟨100, 0, 5⟩]).2 ⟨100, 0, 5⟩ []
    rfl (by simp)).2.1 (by decide) (by decide)
  exact ⟨h, by rw [h]; decide, (next_timeout_spec 7 0 []).1 rfl⟩

/-- C7: `inject` appends its callback to the inbox, sets the
pending-wake flag, and writes a wake byte exactly when the flag was
false; the re-injection path `inject_cb_vec` follows the same wake
discipline on a non-empty range: at most one wake byte per transition
of the flag from false to true. -/
theorem inject_wake_discipline :
    (∀ (s : PState) (cb : Nat),
       (inject s cb).async_cbs = s.async_cbs ++ [cb] ∧
       (inject s cb).async_pending = true ∧
       (inject s cb).wakes = s.wakes + (if s.async_pending then 0 else 1)) ∧
    ∀ (s : PState) (tail : List Nat), tail ≠ [] →
      (inject_cb_vec s tail).1.async_pending = true ∧
      (inject_cb_vec s tail).1.wakes =
        s.wakes + (if s.async_pending then 0 else 1) := by
  constructor
  · intro s cb
    cases hp : s.async_pending <;> simp [inject, hp]
  · intro s tail ht
    have hne : tail.isEmpty = false := by
      simpa [List.isEmpty_iff] using ht
    cases hp : s.async_pending <;> simp [inject_cb_vec, hne, hp]

/-- C7 witness: injecting callback 3 into the empty state appends it
and writes one wake byte; re-injecting a one-element tail into the
empty state writes one wake byte and sets the flag. -/
theorem inject_wake_discipline_witness :
    ((inject emptyPS 3).async_cbs = emptyPS.async_cbs ++ [3] ∧
     (inject emptyPS 3).async_pending = true ∧
     (inject emptyPS 3).wakes =
       emptyPS.wakes + (if emptyPS.async_pending then 0 else 1)) ∧
    (inject_cb_vec emptyPS [4]).1.async_pending = true ∧
    (inject_cb_vec emptyPS [4]).1.wakes =
      emptyPS.wakes + (if emptyPS.async_pending then 0 else 1) :=
  ⟨inject_wake_discipline.1 emptyPS 3,
   inject_wake_discipline.2 emptyPS [4] (by decide)⟩

/-- C2 counterexample: in the concrete router state `sigEx`, PollSet 2
(not the caller, PollSet 1) owns signal 5, yet
`signal_cb(5, nullptr)` invoked on PollSet 1 is not a no-op: the
routing state changes (the owner slot of signal 5 is cleared). -/
theorem signal_cb_null_unowned_not_noop_cex :
    sigEx.owners 5 = some 2 ∧ (2 : Nat) ≠ 1 ∧
    signal_cb_null 1 sigEx 5 ≠ some sigEx := by
  refine ⟨rfl, by decide, ?_⟩
  intro h
  have hval : (signal_cb_null 1 sigEx 5).map (fun s => s.owners 5) =
      some none := rfl
  rw [h] at hval
  simp [sigEx] at hval

/-- C2 (amended): `signal_cb(sig, nullptr)` is a no-op exactly when no
PollSet owns `sig`; whenever some PollSet `ps` owns it — whether or not
`ps` is the caller — the OS disposition is reset to default, the owner
slot is cleared, the callback is removed from the map of `ps`, and a
non-idle flag is cleared with the signal re-raised. -/
theorem erase_signal_cb_spec :
    ∀ (caller : Nat) (s : SigGlobal) (sig : Nat),
      (s.owners sig = none → signal_cb_null caller s sig = some s) ∧
      ∀ ps, s.owners sig = some ps → s.flags sig % 2 = 0 →
        ∃ s', signal_cb_null caller s sig = some s' ∧
          s'.owners sig = none ∧
          s'.engineDisp sig = false ∧
          s'.cbs ps sig = none ∧
          (s.flags sig = 0 → s'.flags sig = 0 ∧ s'.raised = s.raised) ∧
          (s.flags sig ≠ 0 → s'.flags sig = 0 ∧
            s'.raised = sig :: s.raised) := by
  intro caller s sig
  constructor
  · intro h
    simp [signal_cb_null, erase_signal_cb, h]
  · intro ps hps hflag
    have h1 : ¬ s.flags sig % 2 = 1 := by omega
    simp only [signal_cb_null, erase_signal_cb, hps]
    by_cases h2 : s.flags sig = 0
    · rw [if_neg h1, if_neg (by simpa using h2)]
      exact ⟨_, rfl, by simp, by simp, by simp, fun _ => ⟨h2, rfl⟩,
        fun hc => absurd h2 hc⟩
    · rw [if_neg h1, if_pos (by simpa using h2)]
      exact ⟨_, rfl, by simp, by simp, by simp,
        fun hc => absurd hc h2, fun _ => ⟨by simp, rfl⟩⟩

/-- C2 amended-claim witness: in `sigEx`, uninstalling the un-owned
signal 3 is a no-op, and uninstalling signal 5 (owned by PollSet 2)
clears the owner slot, restores the default disposition, and removes
the callback of PollSet 2. -/
theorem erase_signal_cb_spec_witness :
    signal_cb_null 1 sigEx 3 = some sigEx ∧
    ∃ s', signal_cb_null 1 sigEx 5 = some s' ∧ s'.owners 5 = none ∧
      s'.engineDisp 5 = false ∧ s'.cbs 2 5 = none :=
  ⟨(erase_signal_cb_spec 1 sigEx 3).1 rfl,
   by
    obtain ⟨s', h1, h2, h3, h4, _, _⟩ :=
      (erase_signal_cb_spec 1 sigEx 5).2 2 rfl (by decide)
    exact ⟨s', h1, h2, h3, h4⟩⟩

/-- C9: `put_bytes` writes the data bytes followed by zero padding up
to the next 4-byte boundary and advances the cursor by the padded
length; `get_bytes` at the same position recovers exactly the original
bytes with the identical cursor advance; and `get_bytes` reports a
format error precisely when some trailing padding byte is non-zero. -/
theorem put_get_bytes_roundtrip :
    ∀ (data rest : List Nat),
      ((put_bytes data).1.length % 4 = 0 ∧
       (put_bytes data).1.take data.length = data ∧
       (∀ b ∈ (put_bytes data).1.drop data.length, b = 0) ∧
       (put_bytes data).2 = (put_bytes data).1.length) ∧
      get_bytes ((put_bytes data).1 ++ rest) data.length =
        Except.ok (data, (put_bytes data).2) ∧
      ∀ (stream : List Nat) (len : Nat),
        len + padCount len ≤ stream.length →
        (get_bytes stream len = Except.error () ↔
          ∃ b ∈ (stream.drop len).take (padCount len), b ≠ 0) := by
  intro data rest
  refine ⟨⟨?_, ?_, ?_, ?_⟩, ?_, ?_⟩
  · simp only [put_bytes, List.length_append, List.length_replicate,
      padCount]
    omega
  · simp [put_bytes, List.take_left]
  · intro b hb
    simp only [put_bytes, List.drop_left] at hb
    exact (List.eq_of_mem_replicate hb)
  · simp [put_bytes]
  · have hstream : (put_bytes data).1 ++ rest =
        data ++ (List.replicate (padCount data.length) 0 ++ rest) := by
      simp [put_bytes]
    have hdrop : (data ++
        (List.replicate (padCount data.length) 0 ++ rest)).drop
          data.length =
        List.replicate (padCount data.length) 0 ++ rest :=
      List.drop_left _ _
    have htake : (List.replicate (padCount data.length) 0 ++
        rest).take (padCount data.length) =
        List.replicate (padCount data.length) 0 :=
      List.take_left' (by simp)
    rw [hstream, get_bytes, hdrop, htake]
    rw [if_pos (by simp [List.all_eq_true, List.eq_of_mem_replicate])]
    simp [put_bytes, List.take_left]
  · intro stream len _hlen
    constructor
    · intro he
      by_contra hno
      push_neg at hno
      have hall : ((stream.drop len).take (padCount len)).all
          (fun b => decide (b = 0)) = true := by
        simp only [List.all_eq_true, decide_eq_true_eq]
        exact hno
      simp [get_bytes, hall] at he
    · rintro ⟨b, hb, hbne⟩
      have hall : ¬ ((stream.drop len).take (padCount len)).all
          (fun b => decide (b = 0)) = true := by
        simp only [List.all_eq_true, decide_eq_true_eq]
        push_neg
        exact ⟨b, hb, hbne⟩
      simp [get_bytes, hall]

/-- C9 witness: the round trip evaluated on the three bytes
`[1, 2, 3]`, and the error criterion evaluated on a stream whose
padding bytes after one data byte are all zero. -/
theorem put_get_bytes_roundtrip_witness :
    get_bytes ((put_bytes [1, 2, 3]).1 ++ [9]) 3 =
      Except.ok ([1, 2, 3], (put_bytes [1, 2, 3]).2) ∧
    (get_bytes [7, 0, 0, 5] 1 = Except.error () ↔
      ∃ b ∈ (([7, 0, 0, 5] : List Nat).drop 1).take (padCount 1),
        b ≠ 0) :=
  ⟨(put_get_bytes_roundtrip [1, 2, 3] [9]).2.1,
   (put_get_bytes_roundtrip [] []).2.2 [7, 0, 0, 5] 1 (by decide)⟩

/-- The record emplaced into the timer multimap is a member of the
resulting queue. -/
theorem mem_emplaceTR (q : List TRec) (r : TRec) : r ∈ emplaceTR q r := by
  induction q with
  | nil => simp [emplaceTR]
  | cons x rest ih =>
    by_cases h : x.deadline ≤ r.deadline <;> simp [emplaceTR, h, ih]

/-- C10: `timeout_cancel` on a null handle is a no-op, while
`timeout_reschedule_at` dereferences its handle unconditionally: on a
null handle (and likewise on a dangling one) the call is undefined
behavior rather than a no-op; on a valid handle it moves the stored
callback to a fresh record at the new deadline and erases the old
record. -/
theorem timeout_handle_contract :
    (∀ q, timeout_cancel none q = (none, q)) ∧
    (∀ (ms : Int) (q : List TRec) (freshId : Nat),
       timeout_reschedule_at none ms q freshId = none) ∧
    (∀ (h : Nat) (ms : Int) (q : List TRec) (freshId : Nat),
       q.find? (fun r => decide (r.id = h)) = none →
       timeout_reschedule_at (some h) ms q freshId = none) ∧
    ∀ (h : Nat) (ms : Int) (q : List TRec) (freshId : Nat) (r : TRec),
      q.find? (fun r => decide (r.id = h)) = some r →
      freshId ≠ h →
      ∃ q', timeout_reschedule_at (some h) ms q freshId =
              some (some freshId, q') ∧
            (⟨ms, freshId, r.cb⟩ : TRec) ∈ q' ∧
            ∀ x ∈ q', x.id ≠ h := by
  refine ⟨fun q => rfl, fun ms q f => rfl, ?_, ?_⟩
  · intro h ms q f hf
    simp [timeout_reschedule_at, hf]
  · intro h ms q f r hf hfr
    refine ⟨(emplaceTR q ⟨ms, f, r.cb⟩).filter (fun x => x.id ≠ h),
      by simp [timeout_reschedule_at, hf], ?_, ?_⟩
    · rw [List.mem_filter]
      exact ⟨mem_emplaceTR q _, by simpa using hfr⟩
    · intro x hx
      rw [List.mem_filter] at hx
      simpa using hx.2

/-- C10 witness: on the one-timer queue, cancelling a null handle is a
no-op, rescheduling a null or dangling handle is undefined (`none`),
and rescheduling the valid handle 0 to deadline 5 produces the fresh
record 1 carrying the same callback with the old record gone. -/
theorem timeout_handle_contract_witness :
    timeout_cancel none [⟨10, 0, 3⟩] = (none, [⟨10, 0, 3⟩]) ∧
    timeout_reschedule_at none 5 [⟨10, 0, 3⟩] 1 = none ∧
    timeout_reschedule_at (some 9) 5 [⟨10, 0, 3⟩] 1 = none ∧
    ∃ q', timeout_reschedule_at (some 0) 5 [⟨10, 0, 3⟩] 1 =
            some (some 1, q') ∧
          (⟨5, 1, 3⟩ : TRec) ∈ q' ∧ ∀ x ∈ q', x.id ≠ 0 :=
  ⟨timeout_handle_contract.1 [⟨10, 0, 3⟩],
   timeout_handle_contract.2.1 5 [⟨10, 0, 3⟩] 1,
   timeout_handle_contract.2.2.1 9 5 [⟨10, 0, 3⟩] 1 (by decide),
   timeout_handle_contract.2.2.2 0 5 [⟨10, 0, 3⟩] 1 ⟨10, 0, 3⟩
     (by decide) (by decide)⟩

/-- C8: in the dispatch of one ready slot, the read callback runs
exactly when the reported events include a readable, error or hangup
condition and a read callback is registered; a one-shot callback is
moved out with its slot and interest bit cleared before it is invoked
(the state visible at invocation time has the slot empty and the POLLIN
interest bit clear) while a persistent one is invoked in place; and
every read invocation precedes every write invocation for the same
descriptor in the same iteration. -/
theorem dispatch1_read_then_write :
    ∀ (pfd : Pollfd) (fs : FdState),
      ((∃ c ∈ (dispatch1 pfd fs).2.2, c.dir = Dir.readDir) ↔
        readReady pfd.revents = true ∧ fs.rcb ≠ none) ∧
      (∀ cb, fs.rcb = some cb → readReady pfd.revents = true →
        (fs.roneshot = true →
          (dispatch1 pfd fs).2.2.head? = some
            ⟨Dir.readDir, cb, { fs with rcb := none },
             { pfd with events := { pfd.events with pollin := false } }⟩) ∧
        (fs.roneshot = false →
          (dispatch1 pfd fs).2.2.head? =
            some ⟨Dir.readDir, cb, fs, pfd⟩)) ∧
      (dispatch1 pfd fs).2.2.filter (fun c => c.dir = Dir.readDir) ++
        (dispatch1 pfd fs).2.2.filter (fun c => c.dir = Dir.writeDir) =
        (dispatch1 pfd fs).2.2 := by
  intro pfd fs
  cases hr : readReady pfd.revents <;>
    cases hw : writeReady pfd.revents <;>
      cases hrc : fs.rcb <;>
        cases hwc : fs.wcb <;>
          cases hro : fs.roneshot <;>
            cases hwo : fs.woneshot <;>
              simp [dispatch1, hr, hw, hrc, hwc, hro, hwo]

/-- C8 witness: dispatching the concrete ready slot `exPfd` with record
`exFs` first runs one-shot read callback 5 with its slot and POLLIN bit
already cleared, then persistent write callback 6. -/
theorem dispatch1_read_then_write_witness :
    (dispatch1 exPfd exFs).2.2.head? = some
      ⟨Dir.readDir, 5, { exFs with rcb := none },
       { exPfd with events := { exPfd.events with pollin := false } }⟩ ∧
    ((∃ c ∈ (dispatch1 exPfd exFs).2.2, c.dir = Dir.readDir) ↔
      readReady exPfd.revents = true ∧ exFs.rcb ≠ none) :=
  ⟨((dispatch1_read_then_write exPfd exFs).2.1 5 rfl (by decide)).1 rfl,
   (dispatch1_read_then_write exPfd exFs).1⟩

/-- The surviving part of the trailing-trim loop is the reversed list
with its empty-interest head segment dropped. -/
theorem trimBackRev_fst (rev : List Pollfd) (st : Reg) :
    (trimBackRev rev st).1 =
      rev.dropWhile (fun p => p.events.isEmptyMask) := by
  induction rev generalizing st with
  | nil => rfl
  | cons p rest ih =>
    cases h : p.events.isEmptyMask <;>
      simp [trimBackRev, List.dropWhile_cons, h, ih]

/-- The registry after the trailing-trim loop: exactly the records of
the dropped slots are erased. -/
theorem trimBackRev_snd (rev : List Pollfd) (st : Reg) (g : Int) :
    (trimBackRev rev st).2 g =
      if g ∈ (rev.takeWhile (fun p => p.events.isEmptyMask)).map Pollfd.fd
      then none else st g := by
  induction rev generalizing st with
  | nil => simp [trimBackRev]
  | cons p rest ih =>
    cases h : p.events.isEmptyMask
    · simp [trimBackRev, h, List.takeWhile_cons]
    · rw [show trimBackRev (p :: rest) st =
          trimBackRev rest (regErase st p.fd) by simp [trimBackRev, h]]
      rw [ih]
      simp only [List.takeWhile_cons, h, if_true, List.map_cons,
        List.mem_cons]
      by_cases h1 :
          g ∈ (rest.takeWhile (fun p => p.events.isEmptyMask)).map Pollfd.fd
      · simp [h1]
      · by_cases h2 : g = p.fd <;> simp [h1, h2, regErase]

/-- `trimBack` output as a function of the input array. -/
theorem trimBack_fst (pfds : List Pollfd) (st : Reg) :
    (trimBack pfds st).1 =
      (pfds.reverse.dropWhile (fun p => p.events.isEmptyMask)).reverse := by
  simp [trimBack, trimBackRev_fst]

/-- `trimBack` registry output, pointwise. -/
theorem trimBack_snd (pfds : List Pollfd) (st : Reg) (g : Int) :
    (trimBack pfds st).2 g =
      if g ∈ (pfds.reverse.takeWhile
          (fun p => p.events.isEmptyMask)).map Pollfd.fd
      then none else st g := by
  simp [trimBack, trimBackRev_snd]

/-- The input array is the trimmed array followed by the dropped
suffix. -/
theorem trimBack_decomp (pfds : List Pollfd) (st : Reg) :
    pfds = (trimBack pfds st).1 ++
      (pfds.reverse.takeWhile (fun p => p.events.isEmptyMask)).reverse := by
  rw [trimBack_fst]
  conv_lhs => rw [← List.reverse_reverse pfds]
  rw [← List.reverse_append, List.takeWhile_append_dropWhile]

/-- Under the index invariant, positions with the same descriptor
coincide. -/
theorem IdxOk_fd_inj {pfds : List Pollfd} {st : Reg} (h : IdxOk pfds st) :
    ∀ (j k : Nat) (p q : Pollfd), pfds[j]? = some p → pfds[k]? = some q →
      p.fd = q.fd → j = k := by
  intro j k p q hj hk hfd
  obtain ⟨fs1, h1, h1i⟩ := h j p hj
  obtain ⟨fs2, h2, h2i⟩ := h k q hk
  rw [hfd, h2] at h1
  injection h1 with h1
  subst h1
  omega

/-- The index invariant restricted to a prefix: each prefix slot keeps
its record and its descriptor does not occur in the suffix. -/
theorem IdxOk_append_left {P1 P2 : List Pollfd} {st : Reg}
    (h : IdxOk (P1 ++ P2) st) :
    ∀ (j : Nat) (p : Pollfd), P1[j]? = some p →
      p.fd ∉ P2.map Pollfd.fd ∧
      ∃ fs, st p.fd = some fs ∧ fs.idx = (j : Int) := by
  intro j p hj
  have hl : j < P1.length := by
    by_contra hc
    rw [List.getElem?_eq_none (by omega)] at hj
    exact nomatch hj
  have hj' : (P1 ++ P2)[j]? = some p := by
    rw [List.getElem?_append_left hl]; exact hj
  constructor
  · intro hmem
    obtain ⟨q, hqmem, hqfd⟩ := List.mem_map.mp hmem
    obtain ⟨m, hm⟩ := List.mem_iff_getElem?.mp hqmem
    have hq' : (P1 ++ P2)[P1.length + m]? = some q := by
      rw [List.getElem?_append_right (by omega)]
      simpa using hm
    have := IdxOk_fd_inj h j (P1.length + m) p q hj' hq' hqfd.symm
    omega
  · exact h j p hj'

/-- The trailing-trim loop preserves the index invariant. -/
theorem trimBack_IdxOk {pfds : List Pollfd} {st : Reg} (h : IdxOk pfds st) :
    IdxOk (trimBack pfds st).1 (trimBack pfds st).2 := by
  intro j p hj
  have h2 : IdxOk ((trimBack pfds st).1 ++
      (pfds.reverse.takeWhile (fun p => p.events.isEmptyMask)).reverse)
      st := by
    rw [← trimBack_decomp]; exact h
  obtain ⟨hnot, fs, hfs, hidx⟩ := IdxOk_append_left h2 j p hj
  refine ⟨fs, ?_, hidx⟩
  rw [trimBack_snd, if_neg ?_]
  · exact hfs
  · intro hmem
    apply hnot
    simpa [List.map_reverse, List.mem_reverse] using hmem

/-- The trailing-trim loop leaves slot 0 in place when it has a
non-empty interest mask. -/
theorem trimBack_slot0 {pfds : List Pollfd} {st : Reg} {p0 : Pollfd}
    (h0 : pfds[0]? = some p0) (hp0 : p0.events.isEmptyMask = false) :
    (trimBack pfds st).1[0]? = some p0 := by
  have hdec := trimBack_decomp pfds st
  rcases hP1 : (trimBack pfds st).1 with _ | ⟨a, l⟩
  · rw [hP1] at hdec
    rw [List.nil_append] at hdec
    have hmem : p0 ∈ pfds := List.mem_iff_getElem?.mpr ⟨0, h0⟩
    rw [hdec] at hmem
    have hmem2 : p0 ∈ pfds.reverse.takeWhile
        (fun p => p.events.isEmptyMask) := by
      simpa [List.mem_reverse] using hmem
    have := List.mem_takeWhile_imp hmem2
    rw [hp0] at this
    exact nomatch this
  · have ha : pfds[0]? = some a := by
      rw [hdec, hP1]
      simp
    rw [h0] at ha
    injection ha with ha
    simp [ha]

/-- Every element surviving the trailing-trim loop at the back of the
array has a non-empty interest mask. -/
theorem trimBack_last (pfds : List Pollfd) (st : Reg) (q : Pollfd)
    (hq : (trimBack pfds st).1.getLast? = some q) :
    q.events.isEmptyMask = false := by
  rw [trimBack_fst, List.getLast?_reverse] at hq
  have h := List.head?_dropWhile_not
    (fun p => p.events.isEmptyMask) pfds.reverse
  rw [hq] at h
  exact h

/-- One compaction-loop iteration: it preserves the index invariant,
keeps the current index in range, establishes that every slot at or
above the current index has non-empty interest, and leaves slot 0
untouched. -/
theorem cstep_spec (i : Nat) (pfds : List Pollfd) (st : Reg) (p0 : Pollfd)
    (hIdx : IdxOk pfds st) (hi : i + 1 < pfds.length)
    (habove : ∀ (j : Nat) (p : Pollfd), pfds[j]? = some p → i < j →
      p.events.isEmptyMask = false)
    (h0 : pfds[0]? = some p0) (hp0 : p0.events.isEmptyMask = false) :
    IdxOk (cstep i pfds st).1 (cstep i pfds st).2 ∧
    i < (cstep i pfds st).1.length ∧
    (∀ (j : Nat) (p : Pollfd), (cstep i pfds st).1[j]? = some p → i ≤ j →
      p.events.isEmptyMask = false) ∧
    (cstep i pfds st).1[0]? = some p0 := by
  have hilen : i < pfds.length := by omega
  obtain ⟨pe, hp⟩ : ∃ q, pfds[i]? = some q :=
    ⟨_, List.getElem?_eq_getElem hilen⟩
  cases hpe : pe.events.isEmptyMask
  · -- interest non-empty: continue, nothing changes
    have hres1 : (cstep i pfds st).1 = pfds := by
      unfold cstep
      rw [hp]
      simp [hpe]
    have hres2 : (cstep i pfds st).2 = st := by
      unfold cstep
      rw [hp]
      simp [hpe]
    rw [hres1, hres2]
    refine ⟨hIdx, by omega, ?_, h0⟩
    intro j p hj hij
    rcases Nat.eq_or_lt_of_le hij with heq | hlt
    · subst heq
      rw [hp] at hj
      injection hj with hj
      rw [← hj]
      exact hpe
    · exact habove j p hj hlt
  · -- interest empty: swap the back into slot i and pop the back
    obtain ⟨back, hbackq⟩ : ∃ q, pfds[pfds.length - 1]? = some q :=
      ⟨_, List.getElem?_eq_getElem (by omega)⟩
    have hlast : pfds.getLast? = some back := by
      rw [List.getLast?_eq_getElem?]
      exact hbackq
    have hres1 : (cstep i pfds st).1 = (pfds.set i back).dropLast := by
      unfold cstep
      rw [hp, hlast]
      simp [hpe]
    have hres2 : (cstep i pfds st).2 =
        regSetIdx (regErase st pe.fd) back.fd i := by
      unfold cstep
      rw [hp, hlast]
      simp [hpe]
    have hget : ∀ (j : Nat),
        ((pfds.set i back).dropLast)[j]? =
          if j < pfds.length - 1 then
            (if i = j then some back else pfds[j]?)
          else none := by
      intro j
      rw [List.dropLast_eq_take, List.length_set, List.getElem?_take]
      by_cases hj : j < pfds.length - 1
      · rw [if_pos hj, if_pos hj, List.getElem?_set]
        simp [hilen]
      · rw [if_neg hj, if_neg hj]
    have hbacke : back.events.isEmptyMask = false :=
      habove (pfds.length - 1) back hbackq (by omega)
    have hi0 : i ≠ 0 := by
      intro hc
      subst hc
      rw [h0] at hp
      injection hp with hp
      rw [← hp] at hpe
      rw [hp0] at hpe
      exact nomatch hpe
    rw [hres1, hres2]
    refine ⟨?_, ?_, ?_, ?_⟩
    · -- index invariant
      intro j q hq
      rw [hget] at hq
      by_cases hjlt : j < pfds.length - 1
      · rw [if_pos hjlt] at hq
        by_cases hij : i = j
        · rw [if_pos hij] at hq
          injection hq with hq
          subst hq
          obtain ⟨fsb, hfsb, _⟩ :=
            hIdx (pfds.length - 1) back hbackq
          have hfdne : back.fd ≠ pe.fd := by
            intro hc
            have := IdxOk_fd_inj hIdx (pfds.length - 1) i back pe
              hbackq hp hc
            omega
          refine ⟨{ fsb with idx := (i : Int) }, ?_, by subst hij; simp⟩
          simp only [regSetIdx, regErase]
          simp [hfdne, hfsb]
        · rw [if_neg hij] at hq
          obtain ⟨fs, hfs, hidx⟩ := hIdx j q hq
          have hqb : q.fd ≠ back.fd := by
            intro hc
            have := IdxOk_fd_inj hIdx j (pfds.length - 1) q back
              hq hbackq hc
            omega
          have hqi : q.fd ≠ pe.fd := by
            intro hc
            have := IdxOk_fd_inj hIdx j i q pe hq hp hc
            exact hij this.symm
          refine ⟨fs, ?_, hidx⟩
          simp only [regSetIdx, regErase]
          rw [if_neg hqb, if_neg hqi]
          exact hfs
      · rw [if_neg hjlt] at hq
        exact nomatch hq
    · -- current index in range
      rw [List.length_dropLast, List.length_set]
      omega
    · -- slots at or above the current index are non-empty
      intro j q hq hij
      rw [hget] at hq
      by_cases hjlt : j < pfds.length - 1
      · rw [if_pos hjlt] at hq
        by_cases hij2 : i = j
        · rw [if_pos hij2] at hq
          injection hq with hq
          rw [← hq]
          exact hbacke
        · rw [if_neg hij2] at hq
          exact habove j q hq (by omega)
      · rw [if_neg hjlt] at hq
        exact nomatch hq
    · -- slot 0 untouched
      rw [hget, if_pos (by omega), if_neg (by omega)]
      exact h0

/-- The compaction loop run from index `i` down to 0: the index
invariant holds at the end, slot 0 is untouched, and every remaining
slot has non-empty interest. -/
theorem cloop_invariant :
    ∀ (i : Nat) (pfds : List Pollfd) (st : Reg) (p0 : Pollfd),
      IdxOk pfds st → i + 1 < pfds.length →
      (∀ (j : Nat) (p : Pollfd), pfds[j]? = some p → i < j →
        p.events.isEmptyMask = false) →
      pfds[0]? = some p0 → p0.events.isEmptyMask = false →
      IdxOk (cloop i pfds st).1 (cloop i pfds st).2 ∧
      (cloop i pfds st).1[0]? = some p0 ∧
      ∀ (j : Nat) (p : Pollfd), (cloop i pfds st).1[j]? = some p →
        p.events.isEmptyMask = false := by
  intro i
  induction i with
  | zero =>
    intro pfds st p0 hIdx hi habove h0 hp0
    obtain ⟨hI, _, hab, hs0⟩ := cstep_spec 0 pfds st p0 hIdx hi habove h0 hp0
    exact ⟨hI, hs0, fun j p hj => hab j p hj (Nat.zero_le j)⟩
  | succ i ih =>
    intro pfds st p0 hIdx hi habove h0 hp0
    obtain ⟨hI, hlen, hab, hs0⟩ :=
      cstep_spec (i + 1) pfds st p0 hIdx hi habove h0 hp0
    have hnext := ih (cstep (i + 1) pfds st).1 (cstep (i + 1) pfds st).2 p0
      hI (by omega) (fun j p hj hij => hab j p hj (by omega)) hs0 hp0
    simpa [cloop] using hnext

/-- Lookup in the array after the interest-mask update of one slot. -/
theorem setEvents_getElem? (pfds : List Pollfd) (i : Nat)
    (f : Events → Events) (j : Nat) :
    (setEvents pfds i f)[j]? =
      if i = j then
        (pfds[j]?).map (fun p => { p with events := f p.events })
      else pfds[j]? := by
  cases hI : pfds[i]? with
  | none =>
    by_cases hij : i = j
    · subst hij
      simp [setEvents, hI]
    · simp only [setEvents, hI]
      rw [if_neg hij]
  | some p =>
    have hlt : i < pfds.length := by
      rcases List.getElem?_eq_some_iff.mp hI with ⟨h, _⟩
      exact h
    by_cases hij : i = j
    · subst hij
      simp [setEvents, hI, List.getElem?_set_self hlt]
    · simp only [setEvents, hI]
      rw [List.getElem?_set_ne hij, if_neg hij]

/-- The interest-and-record update performed by `fd_cb_helper`
preserves the index invariant: both in the fresh case (a new slot is
appended and the new record points at it) and in the existing case (the
record of `fd` already points at its slot, which the assert
`pfdp->fd == fd` of the source guarantees holds the descriptor `fd`). -/
theorem IdxOk_fd_update
    (pfds pfds1 : List Pollfd) (st : Reg) (fd : Int) (i : Nat)
    (f : Events → Events) (fs2 : FdState)
    (hIdx : IdxOk pfds st)
    (hassert : ∀ fs0, st fd = some fs0 → ¬ fs0.idx < 0 →
      ∃ p, pfds[fs0.idx.toNat]? = some p ∧ p.fd = fd)
    (hfresh : ((st fd).getD defaultFdState).idx < 0 →
      pfds1 = pfds ++ [⟨fd, ⟨false, false⟩, ⟨false, false, false, false⟩⟩] ∧
      i = pfds.length ∧ fs2.idx = (pfds.length : Int))
    (hold : ¬ ((st fd).getD defaultFdState).idx < 0 →
      pfds1 = pfds ∧ (i : Int) = ((st fd).getD defaultFdState).idx ∧
      fs2.idx = ((st fd).getD defaultFdState).idx) :
    IdxOk (setEvents pfds1 i f)
      (fun g => if g = fd then some fs2 else st g) := by
  intro j q hq
  rw [setEvents_getElem?] at hq
  by_cases hcase : ((st fd).getD defaultFdState).idx < 0
  · -- fresh record: a new slot is appended at the end
    obtain ⟨hP, hi, hidx2⟩ := hfresh hcase
    subst hP
    subst hi
    by_cases hj : pfds.length = j
    · subst hj
      rw [if_pos rfl] at hq
      have hnew : (pfds ++
          [(⟨fd, ⟨false, false⟩, ⟨false, false, false, false⟩⟩ :
            Pollfd)])[pfds.length]? =
          some ⟨fd, ⟨false, false⟩, ⟨false, false, false, false⟩⟩ := by
        rw [List.getElem?_append_right (Nat.le_refl _)]
        simp
      rw [hnew] at hq
      injection hq with hq
      refine ⟨fs2, ?_, hidx2⟩
      rw [← hq]
      simp
    · rw [if_neg hj] at hq
      have hjlt : j < pfds.length := by
        obtain ⟨hl, _⟩ := List.getElem?_eq_some_iff.mp hq
        simp at hl
        omega
      have hq' : pfds[j]? = some q := by
        rw [List.getElem?_append_left hjlt] at hq
        exact hq
      obtain ⟨fs, hfs, hidx⟩ := hIdx j q hq'
      have hqfd : q.fd ≠ fd := by
        intro hqf
        rw [← hqf, hfs] at hcase
        simp only [Option.getD_some] at hcase
        omega
      refine ⟨fs, ?_, hidx⟩
      simp only [if_neg hqfd]
      exact hfs
  · -- existing record: the slot of `fd` gets its mask updated in place
    obtain ⟨hP, hi, hidx2⟩ := hold hcase
    subst hP
    obtain ⟨fs0, hfs0⟩ : ∃ fs0, st fd = some fs0 := by
      cases hs : st fd with
      | none =>
        exfalso
        apply hcase
        rw [hs]
        decide
      | some fs0 => exact ⟨fs0, rfl⟩
    rw [hfs0] at hi hidx2 hcase
    simp only [Option.getD_some] at hi hidx2 hcase
    by_cases hij : i = j
    · subst hij
      rw [if_pos rfl] at hq
      cases hPi : pfds1[i]? with
      | none =>
        rw [hPi] at hq
        exact nomatch hq
      | some q0 =>
        rw [hPi] at hq
        injection hq with hq
        obtain ⟨p', hp', hp'fd⟩ := hassert fs0 hfs0 (by omega)
        have htn : fs0.idx.toNat = i := by omega
        rw [htn, hPi] at hp'
        injection hp' with hp'
        have hq0fd : q0.fd = fd := by
          rw [hp']
          exact hp'fd
        have hqfd : q.fd = fd := by
          rw [← hq]
          exact hq0fd
        refine ⟨fs2, ?_, ?_⟩
        · simp [hqfd]
        · rw [hidx2, ← hi]
    · rw [if_neg hij] at hq
      obtain ⟨fs, hfs, hidx⟩ := hIdx j q hq
      have hqfd : q.fd ≠ fd := by
        intro hqf
        rw [hqf, hfs0] at hfs
        injection hfs with hfs
        subst hfs
        apply hij
        omega
      refine ⟨fs, ?_, hidx⟩
      simp only [if_neg hqfd]
      exact hfs

/-- C5: registration through `fd_cb_helper` preserves the
record-index-equals-position invariant (under the assert of the source
that the slot a record points at holds that descriptor), and after the
consolidation pass the readiness-request array is dense (every
surviving slot has a non-empty interest mask), slot 0 is untouched (it
still holds the self-pipe entry, never compacted or swapped, its
interest being non-empty), and every surviving record stores exactly
its position. -/
theorem consolidate_dense_slot0_idx :
    (∀ (fd : Int) (op : Op) (pfds : List Pollfd) (st : Reg)
        (out : List Pollfd × Reg),
       IdxOk pfds st →
       (∀ fs0, st fd = some fs0 → ¬ fs0.idx < 0 →
         ∃ p, pfds[fs0.idx.toNat]? = some p ∧ p.fd = fd) →
       fd_cb_helper fd op pfds st = some out →
       IdxOk out.1 out.2) ∧
    ∀ (pfds : List Pollfd) (st : Reg) (p0 : Pollfd),
      pfds[0]? = some p0 → p0.events.isEmptyMask = false → IdxOk pfds st →
      (consolidate pfds st).1[0]? = some p0 ∧
      (∀ (j : Nat) (p : Pollfd), (consolidate pfds st).1[j]? = some p →
        p.events.isEmptyMask = false) ∧
      IdxOk (consolidate pfds st).1 (consolidate pfds st).2 := by
  constructor
  · intro fd op pfds st out hIdx hassert hEq
    obtain ⟨o1, o2⟩ := out
    show IdxOk o1 o2
    cases hr : op.read
    · cases hw : op.write
      · simp [fd_cb_helper, hr, hw] at hEq
      · simp only [fd_cb_helper, hr, hw, Bool.false_eq_true, if_false,
          if_true, Option.some.injEq, Prod.mk.injEq] at hEq
        obtain ⟨h1, h2⟩ := hEq
        rw [← h1, ← h2]
        refine IdxOk_fd_update _ _ _ _ _ _ _ hIdx hassert ?_ ?_
        · intro hc
          refine ⟨by rw [if_pos hc], by rw [if_pos hc], by rw [if_pos hc]⟩
        · intro hc
          refine ⟨by rw [if_neg hc], ?_, by rw [if_neg hc]⟩
          rw [if_neg hc]
          exact Int.toNat_of_nonneg (by omega)
    · cases hw : op.write
      · simp only [fd_cb_helper, hr, hw, Bool.false_eq_true, if_false,
          if_true, Option.some.injEq, Prod.mk.injEq] at hEq
        obtain ⟨h1, h2⟩ := hEq
        rw [← h1, ← h2]
        refine IdxOk_fd_update _ _ _ _ _ _ _ hIdx hassert ?_ ?_
        · intro hc
          refine ⟨by rw [if_pos hc], by rw [if_pos hc], by rw [if_pos hc]⟩
        · intro hc
          refine ⟨by rw [if_neg hc], ?_, by rw [if_neg hc]⟩
          rw [if_neg hc]
          exact Int.toNat_of_nonneg (by omega)
      · simp [fd_cb_helper, hr, hw] at hEq
  · intro pfds st p0 h0 hp0 hIdx
    have hIdx1 := trimBack_IdxOk hIdx
    have h01 : (trimBack pfds st).1[0]? = some p0 := trimBack_slot0 h0 hp0
    by_cases hlen : (trimBack pfds st).1.length < 2
    · have hres1 : consolidate pfds st = trimBack pfds st := by
        simp only [consolidate]
        rw [if_pos hlen]
      rw [hres1]
      refine ⟨h01, ?_, hIdx1⟩
      intro j p hj
      have hjl : j < (trimBack pfds st).1.length := by
        obtain ⟨hl, _⟩ := List.getElem?_eq_some_iff.mp hj
        exact hl
      have hj0 : j = 0 := by omega
      subst hj0
      rw [h01] at hj
      injection hj with hj
      rw [← hj]
      exact hp0
    · have hres1 : consolidate pfds st =
          cloop ((trimBack pfds st).1.length - 2) (trimBack pfds st).1
            (trimBack pfds st).2 := by
        simp only [consolidate]
        rw [if_neg hlen]
      have hlast : ∀ (j : Nat) (p : Pollfd),
          (trimBack pfds st).1[j]? = some p →
          (trimBack pfds st).1.length - 2 < j →
          p.events.isEmptyMask = false := by
        intro j p hj hj2
        have hjl : j < (trimBack pfds st).1.length := by
          obtain ⟨hl, _⟩ := List.getElem?_eq_some_iff.mp hj
          exact hl
        have hj1 : j = (trimBack pfds st).1.length - 1 := by omega
        subst hj1
        refine trimBack_last pfds st p ?_
        rw [List.getLast?_eq_getElem?]
        exact hj
      obtain ⟨hI, h0f, hdense⟩ :=
        cloop_invariant ((trimBack pfds st).1.length - 2)
          (trimBack pfds st).1 (trimBack pfds st).2 p0 hIdx1 (by omega)
          hlast h01 hp0
      rw [hres1]
      exact ⟨h0f, hdense, hI⟩

/-- C5 witness: registering fresh descriptor 5 for read in the empty
state yields a one-slot array whose record stores index 0; and
consolidating the concrete two-slot array `wPfds` (slot 1 empty) keeps
the self-pipe in slot 0, leaves only non-empty slots, and preserves the
index invariant. -/
theorem consolidate_dense_slot0_idx_witness :
    IdxOk [(⟨5, ⟨true, false⟩, ⟨false, false, false, false⟩⟩ : Pollfd)]
      (fun g => if g = 5 then some ⟨0, none, none, false, false⟩
                else none) ∧
    (consolidate wPfds wReg).1[0]? =
      some ⟨3, ⟨true, false⟩, ⟨false, false, false, false⟩⟩ ∧
    (∀ (j : Nat) (p : Pollfd), (consolidate wPfds wReg).1[j]? = some p →
      p.events.isEmptyMask = false) ∧
    IdxOk (consolidate wPfds wReg).1 (consolidate wPfds wReg).2 := by
  have hIdx : IdxOk wPfds wReg := by
    intro j p hj
    match j with
    | 0 =>
      simp only [wPfds] at hj
      injection hj with hj
      rw [← hj]
      exact ⟨⟨0, some 1, none, false, false⟩, rfl, rfl⟩
    | 1 =>
      simp only [wPfds] at hj
      injection hj with hj
      rw [← hj]
      exact ⟨⟨1, none, none, false, false⟩, rfl, rfl⟩
    | n + 2 => simp [wPfds] at hj
  refine ⟨?_, ?_⟩
  · exact consolidate_dense_slot0_idx.1 5 ⟨true, false, false⟩ []
      (fun _ => none)
      ([⟨5, ⟨true, false⟩, ⟨false, false, false, false⟩⟩],
       fun g => if g = 5 then some ⟨0, none, none, false, false⟩
                else none)
      (fun j p hj => by simp at hj)
      (fun fs0 h => nomatch h)
      rfl
  · exact consolidate_dense_slot0_idx.2 wPfds wReg
      ⟨3, ⟨true, false⟩, ⟨false, false, false, false⟩⟩ rfl rfl hIdx

end XdrModel
